import Mathlib

/-!
Verification of the embryo developmental-transition dataset pipeline.

The definitions below are a shallow embedding of the windowing, validation,
labelling, balancing and vocabulary logic of `Training/DataSet.py`
(`Embryo_Transition_Dataset`) and of the online inference windowing in
`WebApplication/Classes/Doctor.py` (`predictTransitions`) together with its
route-level input validation in `WebApplication/Routes/Doctor_Routes.py`
(`Embryo_Predict`).  Machine integers are modelled as `Nat`/`Int`; Python
exceptions and early error returns are modelled with `Except`/`Option`;
the stdlib pseudo-random primitives (`random.seed`, `random.sample`,
`random.shuffle`) are modelled as an explicit generator-state record whose
operations satisfy the documented sampling contracts.
-/

namespace EmbryoTransitions

/-- A per-frame record, as grouped by `_create_sequences`: each row of the
split CSV contributes `identifier`, `path` and the phase-column value. -/
structure Frame where
  identifier : String
  path : String
  phase : String
deriving Repr, DecidableEq, Inhabited

/-! ## Window Generator (`_create_sequences`, DataSet.py lines 206–221) -/

/-- The iteration space of
`range(0, len(sorted_frames) - window_size + 1, stride)`:
offsets `0, s, 2s, …` while `offset + w ≤ L`; empty when `L < w`. -/
def windowStarts (L w s : Nat) : List Nat :=
  if w ≤ L then (List.range ((L - w) / s + 1)).map (fun k => k * s) else []

/-- The Python slice `sorted_frames[start : start + window_size]`. -/
def windowAt (frames : List Frame) (start w : Nat) : List Frame :=
  (frames.drop start).take w

/-- `list(set([frame["phase"] for frame in sequence]))`, up to the (irrelevant)
order of the resulting distinct phase values. -/
def uniquePhases (seq : List Frame) : List String :=
  (seq.map Frame.phase).dedup

/-- The strict-mode filter body of `_create_sequences`: reject when more than
two distinct phases occur; with exactly two distinct phases, sort their
vocabulary indices and accept only when they are consecutive. -/
def strictPhaseCheck (ptoi : String → Nat) (seq : List Frame) : Bool :=
  match uniquePhases seq with
  | [] => true
  | [_] => true
  | [a, b] =>
      if ptoi a ≤ ptoi b then ptoi b == ptoi a + 1 else ptoi a == ptoi b + 1
  | _ => false

/-- Window retention: permissive mode (`multiple_phases = True`) keeps every
candidate window, strict mode applies `strictPhaseCheck`. -/
def validWindow (ptoi : String → Nat) (multiplePhases : Bool)
    (seq : List Frame) : Bool :=
  if multiplePhases then true else strictPhaseCheck ptoi seq

/-- The windows appended to `self.video_sequences` for one video whose sorted
frame list is `frames` (DataSet.py lines 206–221). -/
def createSequences (ptoi : String → Nat) (multiplePhases : Bool)
    (w s : Nat) (frames : List Frame) : List (List Frame) :=
  ((windowStarts frames.length w s).map (fun st => windowAt frames st w)).filter
    (validWindow ptoi multiplePhases)

/-! ### Generator lemmas -/

theorem validWindow_permissive (ptoi : String → Nat) (seq : List Frame) :
    validWindow ptoi true seq = true := rfl

theorem createSequences_permissive (ptoi : String → Nat) (w s : Nat)
    (frames : List Frame) :
    createSequences ptoi true w s frames =
      (windowStarts frames.length w s).map (fun st => windowAt frames st w) := by
  unfold createSequences
  exact List.filter_eq_self.mpr (fun a _ => rfl)

theorem windowStarts_mem {L w s st : Nat} (h : st ∈ windowStarts L w s) :
    w ≤ L ∧ st + w ≤ L ∧ ∃ k, st = k * s := by
  unfold windowStarts at h
  by_cases hwL : w ≤ L
  · rw [if_pos hwL] at h
    obtain ⟨k, hk, rfl⟩ := List.mem_map.mp h
    have hk' : k ≤ (L - w) / s := by
      have := List.mem_range.mp hk
      omega
    have h1 : k * s ≤ (L - w) / s * s := Nat.mul_le_mul_right s hk'
    have h2 : (L - w) / s * s ≤ L - w := Nat.div_mul_le_self _ _
    exact ⟨hwL, by omega, k, rfl⟩
  · rw [if_neg hwL] at h
    exact absurd h (List.not_mem_nil st)

theorem length_windowAt_of_mem {frames : List Frame} {w s : Nat}
    {win : List Frame}
    (hmem : win ∈ (windowStarts frames.length w s).map
      (fun st => windowAt frames st w)) :
    win.length = w := by
  obtain ⟨st, hst, rfl⟩ := List.mem_map.mp hmem
  obtain ⟨hwL, hstw, -⟩ := windowStarts_mem hst
  simp only [windowAt, List.length_take, List.length_drop]
  omega

theorem length_of_mem_createSequences {ptoi : String → Nat} {mp : Bool}
    {w s : Nat} {frames : List Frame} {win : List Frame}
    (hmem : win ∈ createSequences ptoi mp w s frames) :
    win.length = w :=
  length_windowAt_of_mem (List.mem_of_mem_filter hmem)

theorem length_windowStarts (L w s : Nat) :
    (windowStarts L w s).length = if w ≤ L then (L - w) / s + 1 else 0 := by
  unfold windowStarts
  by_cases hwL : w ≤ L
  · rw [if_pos hwL, if_pos hwL, List.length_map, List.length_range]
  · rw [if_neg hwL, if_neg hwL, List.length_nil]

/-- C1 helper: the candidate-window count in `Int` floor-division form. -/
theorem windowStarts_count_int (L w s : Nat) (_hw : 1 ≤ w) (hs : 1 ≤ s) :
    ((windowStarts L w s).length : Int) =
      max 0 (((L : Int) - (w : Int)) / (s : Int) + 1) := by
  rw [length_windowStarts]
  by_cases hwL : w ≤ L
  · rw [if_pos hwL]
    have hcast : ((L : Int) - (w : Int)) = ((L - w : Nat) : Int) := by omega
    rw [hcast, ← Int.ofNat_ediv]
    have : (0 : Int) ≤ ((L - w) / s : Nat) + 1 := by positivity
    omega
  · rw [if_neg hwL]
    have hneg : ((L : Int) - (w : Int)) < 0 := by omega
    have hspos : (0 : Int) < (s : Int) := by exact_mod_cast hs
    have := Int.ediv_neg' hneg hspos
    omega

/-- C1: for a video whose sorted frame list has length `L` and for any
`window_size w ≥ 1`, `stride s ≥ 1`, the generator emits exactly
`max(0, ⌊(L - w)/s⌋ + 1)` candidate windows, each of exactly `w` frames,
each starting at a multiple of the stride with `offset + w ≤ L`; zero
windows when `L < w`, exactly one window (the whole list) when `L = w`,
and in permissive mode (`multiple_phases = True`) every candidate window
is retained. -/
theorem window_generator_count (ptoi : String → Nat) (frames : List Frame)
    (w s : Nat) (hw : 1 ≤ w) (hs : 1 ≤ s) :
    (((createSequences ptoi true w s frames).length : Int) =
      max 0 (((frames.length : Int) - (w : Int)) / (s : Int) + 1)) ∧
    (∀ win ∈ createSequences ptoi true w s frames, win.length = w) ∧
    (∀ st ∈ windowStarts frames.length w s, st + w ≤ frames.length ∧
      ∃ k, st = k * s) ∧
    (frames.length < w → createSequences ptoi true w s frames = []) ∧
    (frames.length = w → createSequences ptoi true w s frames = [frames]) ∧
    createSequences ptoi true w s frames =
      (windowStarts frames.length w s).map (fun st => windowAt frames st w) := by
  refine ⟨?_, ?_, ?_, ?_, ?_, createSequences_permissive ptoi w s frames⟩
  · rw [createSequences_permissive, List.length_map]
    exact windowStarts_count_int frames.length w s hw hs
  · intro win hwin
    exact length_of_mem_createSequences hwin
  · intro st hst
    obtain ⟨-, h2, h3⟩ := windowStarts_mem hst
    exact ⟨h2, h3⟩
  · intro hLw
    rw [createSequences_permissive]
    unfold windowStarts
    rw [if_neg (by omega), List.map_nil]
  · intro hLw
    rw [createSequences_permissive]
    unfold windowStarts
    rw [if_pos (by omega)]
    have hz : (frames.length - w) / s + 1 = 1 := by
      rw [hLw, Nat.sub_self, Nat.zero_div]
    rw [hz]
    have hr : List.range 1 = [0] := rfl
    rw [hr]
    simp only [List.map_cons, List.map_nil, Nat.zero_mul]
    unfold windowAt
    rw [List.drop_zero, ← hLw, List.take_length]

def demoPtoi : String → Nat :=
  fun p => if p = "t3" then 1 else if p = "t4" then 2 else 0

def demoFrames : List Frame :=
  [{ identifier := "E1_RUN_1", path := "a.png", phase := "t2" },
   { identifier := "E1_RUN_2", path := "b.png", phase := "t2" },
   { identifier := "E1_RUN_3", path := "c.png", phase := "t3" }]

/-- C1 witness: the generator contract evaluated at a three-frame video with
`window_size = 2`, `stride = 1`. -/
theorem window_generator_count_witness :
    1 ≤ 2 ∧ 1 ≤ 1 ∧
    (((createSequences demoPtoi true 2 1 demoFrames).length : Int) =
      max 0 (((demoFrames.length : Int) - ((2 : Nat) : Int)) /
        ((1 : Nat) : Int) + 1)) :=
  ⟨by decide, by decide,
    (window_generator_count demoPtoi demoFrames 2 1 (by decide) (by decide)).1⟩

/-! ## Strict-mode validator (DataSet.py lines 210–220) -/

theorem strictPhaseCheck_iff (ptoi : String → Nat) (seq : List Frame) :
    strictPhaseCheck ptoi seq = true ↔
      ((uniquePhases seq).length ≤ 1 ∨
        ∃ a b, uniquePhases seq = [a, b] ∧
          (ptoi a + 1 = ptoi b ∨ ptoi b + 1 = ptoi a)) := by
  unfold strictPhaseCheck
  rcases hu : uniquePhases seq with - | ⟨a, - | ⟨b, - | ⟨c, t⟩⟩⟩
  · simp
  · simp
  · simp only [List.length_cons, List.length_nil]
    constructor
    · intro hc
      refine Or.inr ⟨a, b, rfl, ?_⟩
      by_cases hab : ptoi a ≤ ptoi b
      · rw [if_pos hab, beq_iff_eq] at hc
        omega
      · rw [if_neg hab, beq_iff_eq] at hc
        omega
    · rintro (h1 | ⟨a', b', heq, hadj⟩)
      · omega
      · obtain ⟨rfl, rfl⟩ : a = a' ∧ b = b' := by
          simp only [List.cons.injEq, and_true] at heq
          exact heq
        by_cases hab : ptoi a ≤ ptoi b
        · rw [if_pos hab, beq_iff_eq]
          omega
        · rw [if_neg hab, beq_iff_eq]
          omega
  · simp only [List.length_cons]
    constructor
    · intro hc
      exact absurd hc (by simp)
    · rintro (h1 | ⟨a', b', heq, hadj⟩)
      · omega
      · simp only [List.cons.injEq] at heq
        exact absurd heq.2.2 (by simp)

/-- C3: in strict mode (`multiple_phases = False`) a candidate window is
retained iff its distinct-phase list has at most one element, or exactly two
elements whose vocabulary indices differ by exactly one; any window with two
non-adjacent phases or with three or more distinct phases is dropped. -/
theorem strict_mode_retention (ptoi : String → Nat) (frames : List Frame)
    (w s : Nat) (win : List Frame) :
    win ∈ createSequences ptoi false w s frames ↔
      (win ∈ (windowStarts frames.length w s).map
          (fun st => windowAt frames st w) ∧
        ((uniquePhases win).length ≤ 1 ∨
          ∃ a b, uniquePhases win = [a, b] ∧
            (ptoi a + 1 = ptoi b ∨ ptoi b + 1 = ptoi a))) := by
  unfold createSequences
  rw [List.mem_filter]
  exact and_congr_right fun _ => strictPhaseCheck_iff ptoi win

/-! ## Transition-flag derivation (`__getitem__`, DataSet.py lines 304–317) -/

/-- `labels`: the per-frame vocabulary indices collected by `__getitem__`
(and by `_balance_flags` / `_print_flag_consistency`). -/
def frameLabels (ptoi : String → Nat) (seq : List Frame) : List Nat :=
  seq.map (fun f => ptoi f.phase)

/-- `consistency_flag = 0 if labels[0] == labels[-1] else 1`. -/
def consistencyFlag (ptoi : String → Nat) (seq : List Frame) : Nat :=
  if (frameLabels ptoi seq).headI = (frameLabels ptoi seq).getLastI then 0 else 1

/-- `first_frame_phase = phase_to_index[sequence[0]["phase"]]`. -/
def firstPhaseIndex (ptoi : String → Nat) (seq : List Frame) : Nat :=
  ptoi (seq.headI).phase

/-- `last_frame_phase = phase_to_index[sequence[-1]["phase"]]`. -/
def lastPhaseIndex (ptoi : String → Nat) (seq : List Frame) : Nat :=
  ptoi (seq.getLastI).phase

theorem headI_frameLabels (ptoi : String → Nat) (x : Frame) (xs : List Frame) :
    (frameLabels ptoi (x :: xs)).headI = ptoi ((x :: xs).headI).phase := rfl

theorem getLastI_frameLabels (ptoi : String → Nat) (x : Frame)
    (xs : List Frame) :
    (frameLabels ptoi (x :: xs)).getLastI = ptoi ((x :: xs).getLastI).phase := by
  have h : ∃ y, (x :: xs).getLast? = some y := by
    cases h' : (x :: xs).getLast? with
    | none =>
        have := List.getLast?_isSome.mpr (List.cons_ne_nil x xs)
        rw [h'] at this
        exact absurd this (by simp)
    | some y => exact ⟨y, rfl⟩
  obtain ⟨y, hy⟩ := h
  simp only [frameLabels]
  rw [List.getLastI_eq_getLast?, List.getLastI_eq_getLast?,
    List.getLast?_map, hy]
  rfl

/-- C6: for every retained window, the derived `transition_flag` is `0` iff
the first and last frames' vocabulary indices agree, and `1` iff they
differ. -/
theorem transition_flag_iff (ptoi : String → Nat) (mp : Bool)
    (frames : List Frame) (w s : Nat) (win : List Frame) (hw : 1 ≤ w)
    (hmem : win ∈ createSequences ptoi mp w s frames) :
    (consistencyFlag ptoi win = 0 ↔
      firstPhaseIndex ptoi win = lastPhaseIndex ptoi win) ∧
    (consistencyFlag ptoi win = 1 ↔
      ¬ firstPhaseIndex ptoi win = lastPhaseIndex ptoi win) := by
  have hlen : win.length = w := length_of_mem_createSequences hmem
  obtain ⟨x, xs, rfl⟩ : ∃ x xs, win = x :: xs := by
    cases win with
    | nil =>
        exfalso
        rw [List.length_nil] at hlen
        omega
    | cons x xs => exact ⟨x, xs, rfl⟩
  unfold consistencyFlag firstPhaseIndex lastPhaseIndex
  rw [headI_frameLabels, getLastI_frameLabels]
  by_cases h : ptoi ((x :: xs).headI).phase = ptoi ((x :: xs).getLastI).phase <;>
    simp [h]

def demoWin : List Frame :=
  [{ identifier := "E1_RUN_1", path := "a.png", phase := "t2" },
   { identifier := "E1_RUN_2", path := "b.png", phase := "t2" }]

/-- C6 witness: the flag law evaluated at a concrete retained window. -/
theorem transition_flag_iff_witness :
    1 ≤ 2 ∧ demoWin ∈ createSequences demoPtoi true 2 1 demoFrames ∧
    ((consistencyFlag demoPtoi demoWin = 0 ↔
        firstPhaseIndex demoPtoi demoWin = lastPhaseIndex demoPtoi demoWin) ∧
      (consistencyFlag demoPtoi demoWin = 1 ↔
        ¬ firstPhaseIndex demoPtoi demoWin = lastPhaseIndex demoPtoi demoWin)) :=
  ⟨by decide, by decide,
    transition_flag_iff demoPtoi true demoFrames 2 1 demoWin (by decide)
      (by decide)⟩

/-! ## Class Balancer (`_balance_flags`, DataSet.py lines 223–237)

`random.seed`, `random.sample` and `random.shuffle` are Python stdlib
primitives mutating one global generator; they are modelled as an explicit
state record.  `random.seed(42)` replaces the incoming state with
`seedFn 42`, and each stdlib call threads the state through. -/

/-- Abstract model of the `random` module's global generator. -/
structure RNG (σ : Type) where
  seedFn : Nat → σ
  sampleFn : σ → List (List Frame) → Nat → List (List Frame) × σ
  shuffleFn : σ → List (List Frame) → List (List Frame) × σ

/-- `labels[0] == labels[-1]`, the flag-0 test of `_balance_flags`. -/
def isFlagZero (ptoi : String → Nat) (seq : List Frame) : Bool :=
  (frameLabels ptoi seq).headI == (frameLabels ptoi seq).getLastI

/-- `_balance_flags`: split the population by flag, reseed the generator with
the constant 42, draw `min` counts from each side without replacement,
concatenate and shuffle. -/
def balanceFlags {σ : Type} (R : RNG σ) (ptoi : String → Nat) (_g : σ)
    (pop : List (List Frame)) : List (List Frame) × σ :=
  let flag0 := pop.filter (fun seq => isFlagZero ptoi seq)
  let flag1 := pop.filter (fun seq => !isFlagZero ptoi seq)
  let n := min flag0.length flag1.length
  let g0 := R.seedFn 42
  let p0 := R.sampleFn g0 flag0 n
  let p1 := R.sampleFn p0.2 flag1 n
  R.shuffleFn p1.2 (p0.1 ++ p1.1)

/-- Documented contract of `random.sample(population, k)` for `k ≤ len`:
the draw has exactly `k` elements and is a sub-multiset of the population
(chosen without replacement). -/
def SampleSpec {σ : Type} (R : RNG σ) : Prop :=
  ∀ g l n, n ≤ l.length →
    (R.sampleFn g l n).1.length = n ∧ (R.sampleFn g l n).1.Subperm l

/-- Documented contract of `random.shuffle(x)`: the result is a permutation
of its input. -/
def ShuffleSpec {σ : Type} (R : RNG σ) : Prop :=
  ∀ g l, (R.shuffleFn g l).1.Perm l

/-- C4: the balancer returns exactly `min(a, b)` flag-0 windows and
`min(a, b)` flag-1 windows (total `2 * min(a, b)`), drawn without replacement
from the input population (a sub-multiset of it), and the empty population
when either flag class is empty. -/
theorem class_balancer_counts {σ : Type} (R : RNG σ) (ptoi : String → Nat)
    (g : σ) (pop : List (List Frame)) (hS : SampleSpec R)
    (hH : ShuffleSpec R) :
    ((balanceFlags R ptoi g pop).1.countP (fun seq => isFlagZero ptoi seq) =
      min (pop.filter (fun seq => isFlagZero ptoi seq)).length
        (pop.filter (fun seq => !isFlagZero ptoi seq)).length) ∧
    ((balanceFlags R ptoi g pop).1.countP (fun seq => !isFlagZero ptoi seq) =
      min (pop.filter (fun seq => isFlagZero ptoi seq)).length
        (pop.filter (fun seq => !isFlagZero ptoi seq)).length) ∧
    ((balanceFlags R ptoi g pop).1.length =
      2 * min (pop.filter (fun seq => isFlagZero ptoi seq)).length
        (pop.filter (fun seq => !isFlagZero ptoi seq)).length) ∧
    (balanceFlags R ptoi g pop).1.Subperm pop ∧
    (((pop.filter (fun seq => isFlagZero ptoi seq)).length = 0 ∨
        (pop.filter (fun seq => !isFlagZero ptoi seq)).length = 0) →
      (balanceFlags R ptoi g pop).1 = []) := by
  set flag0 := pop.filter (fun seq => isFlagZero ptoi seq) with hflag0
  set flag1 := pop.filter (fun seq => !isFlagZero ptoi seq) with hflag1
  set n := min flag0.length flag1.length with hn
  obtain ⟨hlen0, hsub0⟩ :=
    hS (R.seedFn 42) flag0 n (by omega)
  set p0 := R.sampleFn (R.seedFn 42) flag0 n with hp0
  obtain ⟨hlen1, hsub1⟩ := hS p0.2 flag1 n (by omega)
  set p1 := R.sampleFn p0.2 flag1 n with hp1
  have hout : (balanceFlags R ptoi g pop).1.Perm (p0.1 ++ p1.1) := by
    have := hH p1.2 (p0.1 ++ p1.1)
    simpa [balanceFlags, ← hflag0, ← hflag1, ← hn, ← hp0, ← hp1] using this
  have hmem0 : ∀ seq ∈ p0.1, isFlagZero ptoi seq = true := by
    intro seq hseq
    have : seq ∈ flag0 := hsub0.subset hseq
    exact (List.mem_filter.mp this).2
  have hmem1 : ∀ seq ∈ p1.1, isFlagZero ptoi seq = false := by
    intro seq hseq
    have : seq ∈ flag1 := hsub1.subset hseq
    have := (List.mem_filter.mp this).2
    simpa using this
  have hc00 : p0.1.countP (fun seq => isFlagZero ptoi seq) = n := by
    rw [← hlen0]
    exact List.countP_eq_length.mpr hmem0
  have hc01 : p0.1.countP (fun seq => !isFlagZero ptoi seq) = 0 :=
    List.countP_eq_zero.mpr (by intro seq hseq; simp [hmem0 seq hseq])
  have hc10 : p1.1.countP (fun seq => isFlagZero ptoi seq) = 0 :=
    List.countP_eq_zero.mpr (by intro seq hseq; simp [hmem1 seq hseq])
  have hc11 : p1.1.countP (fun seq => !isFlagZero ptoi seq) = n := by
    rw [← hlen1]
    exact List.countP_eq_length.mpr (by intro seq hseq; simp [hmem1 seq hseq])
  refine ⟨?_, ?_, ?_, ?_, ?_⟩
  · rw [hout.countP_eq, List.countP_append, hc00, hc10]
    omega
  · rw [hout.countP_eq, List.countP_append, hc01, hc11]
    omega
  · rw [hout.length_eq, List.length_append, hlen0, hlen1]
    omega
  · have happ : (p0.1 ++ p1.1).Subperm (flag0 ++ flag1) := by
      obtain ⟨t0, ht0p, ht0s⟩ := hsub0
      obtain ⟨t1, ht1p, ht1s⟩ := hsub1
      exact ⟨t0 ++ t1, ht0p.append ht1p, ht0s.append ht1s⟩
    have hfilters : (flag0 ++ flag1).Perm pop :=
      List.filter_append_perm (fun seq => isFlagZero ptoi seq) pop
    exact (hout.subperm.trans happ).trans hfilters.subperm
  · intro hzero
    have hn0 : n = 0 := by omega
    have : (balanceFlags R ptoi g pop).1.length = 0 := by
      rw [hout.length_eq, List.length_append, hlen0, hlen1, hn0]
    exact List.length_eq_zero.mp this

/-- C7: the balancer is a deterministic function of its input population:
whatever global generator state two runs start from (in particular a second
run on the state left behind by the first), the selected windows and their
order coincide, because the balancer reseeds with the constant 42. -/
theorem class_balancer_deterministic {σ : Type} (R : RNG σ)
    (ptoi : String → Nat) (g g' : σ) (pop : List (List Frame)) :
    ((balanceFlags R ptoi g pop).1 = (balanceFlags R ptoi g' pop).1) ∧
    ((balanceFlags R ptoi ((balanceFlags R ptoi g pop).2) pop).1 =
      (balanceFlags R ptoi g pop).1) :=
  ⟨rfl, rfl⟩

/-- The balancing step as invoked from `__init__`: the dataset `seed`
constructor parameter determines the generator state that reaches
`_balance_flags`. -/
def constructorBalance {σ : Type} (R : RNG σ) (ptoi : String → Nat)
    (seed : Nat) (pop : List (List Frame)) : List (List Frame) :=
  (balanceFlags R ptoi (R.seedFn seed) pop).1

/-- C10: the balanced population is independent of the dataset's `seed`
constructor parameter, because `_balance_flags` reseeds the generator with
the fixed constant 42 before sampling. -/
theorem balancer_seed_independent {σ : Type} (R : RNG σ)
    (ptoi : String → Nat) (seed₁ seed₂ : Nat) (pop : List (List Frame)) :
    constructorBalance R ptoi seed₁ pop = constructorBalance R ptoi seed₂ pop :=
  rfl

/-- A concrete generator meeting the stdlib contracts, used to witness the
balancer theorems. -/
def demoRNG : RNG Nat where
  seedFn := fun k => k
  sampleFn := fun g l n => (l.take n, g + 1)
  shuffleFn := fun g l => (l, g)

theorem demoRNG_sample : SampleSpec demoRNG := by
  intro g l n h
  refine ⟨?_, (List.take_sublist n l).subperm⟩
  simp only [demoRNG, List.length_take]
  omega

theorem demoRNG_shuffle : ShuffleSpec demoRNG :=
  fun _ l => List.Perm.refl l

def demoPop : List (List Frame) :=
  [[{ identifier := "E1_RUN_1", path := "a.png", phase := "t2" }],
   [{ identifier := "E1_RUN_2", path := "b.png", phase := "t2" },
    { identifier := "E1_RUN_3", path := "c.png", phase := "t3" }]]

/-- C4 witness: the balancer contract evaluated with a concrete generator on
a two-window population holding one window of each flag. -/
theorem class_balancer_counts_witness :
    SampleSpec demoRNG ∧ ShuffleSpec demoRNG ∧
    (((balanceFlags demoRNG demoPtoi 0 demoPop).1.countP
        (fun seq => isFlagZero demoPtoi seq) =
      min (demoPop.filter (fun seq => isFlagZero demoPtoi seq)).length
        (demoPop.filter (fun seq => !isFlagZero demoPtoi seq)).length) ∧
    ((balanceFlags demoRNG demoPtoi 0 demoPop).1.countP
        (fun seq => !isFlagZero demoPtoi seq) =
      min (demoPop.filter (fun seq => isFlagZero demoPtoi seq)).length
        (demoPop.filter (fun seq => !isFlagZero demoPtoi seq)).length) ∧
    ((balanceFlags demoRNG demoPtoi 0 demoPop).1.length =
      2 * min (demoPop.filter (fun seq => isFlagZero demoPtoi seq)).length
        (demoPop.filter (fun seq => !isFlagZero demoPtoi seq)).length) ∧
    (balanceFlags demoRNG demoPtoi 0 demoPop).1.Subperm demoPop ∧
    (((demoPop.filter (fun seq => isFlagZero demoPtoi seq)).length = 0 ∨
        (demoPop.filter (fun seq => !isFlagZero demoPtoi seq)).length = 0) →
      (balanceFlags demoRNG demoPtoi 0 demoPop).1 = [])) :=
  ⟨demoRNG_sample, demoRNG_shuffle,
    class_balancer_counts demoRNG demoPtoi 0 demoPop demoRNG_sample
      demoRNG_shuffle⟩

/-! ## Online Windowing Adapter (`predictTransitions`, Doctor.py)

Both the real-model branch (lines 653–672) and the missing-artifact fallback
(lines 604–614) iterate `for i in range(len(images) - frame_count + 1)`;
the real branch classifies the slice `images_tensor[i : i + frame_count]`,
the fallback draws one random binary prediction per iteration. -/

/-- `range(N - frame_count + 1)` with Python semantics: empty when
`N < frame_count`. -/
def onlineStarts (N F : Nat) : List Nat :=
  if F ≤ N then List.range (N - F + 1) else []

/-- The unit-stride inference windows `images[i : i + frame_count]`. -/
def onlineWindows {I : Type} (images : List I) (F : Nat) : List (List I) :=
  (onlineStarts images.length F).map (fun i => (images.drop i).take F)

/-- The real-model branch: one prediction per window, produced by the loaded
classifier. -/
def predictReal {I : Type} (model : List I → Nat) (images : List I)
    (F : Nat) : List Nat :=
  (onlineWindows images F).map model

/-- The fallback branch when the model artifact is missing: one
independently drawn `random.randint(0, 1)` per window position. -/
def predictRandomFallback {I : Type} (draw : Nat → Nat) (images : List I)
    (F : Nat) : List Nat :=
  (onlineStarts images.length F).map (fun i => draw i)

/-- C2: with `N ≥ frame_count` the adapter produces exactly
`N - frame_count + 1` predictions — one per window — in both the real-model
and the random-fallback paths, and window `i` covers exactly frames
`i … i + frame_count - 1`. -/
theorem online_windowing_adapter {I : Type} (model : List I → Nat)
    (draw : Nat → Nat) (images : List I) (F : Nat)
    (hN : F ≤ images.length) :
    ((predictReal model images F).length = images.length - F + 1) ∧
    ((predictRandomFallback draw images F).length = images.length - F + 1) ∧
    ((onlineWindows images F).length = images.length - F + 1) ∧
    (predictReal model images F = (onlineWindows images F).map model) ∧
    (∀ i, i < images.length - F + 1 →
      ((onlineWindows images F).getD i []).length = F ∧
      ∀ j, j < F → ∀ d,
        ((onlineWindows images F).getD i []).getD j d =
          images.getD (i + j) d) := by
  have hstarts : onlineStarts images.length F =
      List.range (images.length - F + 1) := if_pos hN
  refine ⟨?_, ?_, ?_, rfl, ?_⟩
  · simp [predictReal, onlineWindows, hstarts]
  · simp [predictRandomFallback, hstarts]
  · simp [onlineWindows, hstarts]
  · intro i hi
    have hwin : (onlineWindows images F).getD i [] =
        (images.drop i).take F := by
      rw [onlineWindows, hstarts, List.getD_eq_getElem?_getD,
        List.getElem?_map, List.getElem?_range hi]
      rfl
    rw [hwin]
    constructor
    · rw [List.length_take, List.length_drop]
      omega
    · intro j hj d
      rw [List.getD_eq_getElem?_getD, List.getD_eq_getElem?_getD,
        List.getElem?_take, if_pos hj, List.getElem?_drop]

/-- C2 witness: ten frames with `frame_count = 8` give exactly three
windows and three predictions on both paths. -/
theorem online_windowing_adapter_witness :
    8 ≤ (List.range 10).length ∧
    ((predictReal (fun w => w.length) (List.range 10) 8).length =
      (List.range 10).length - 8 + 1) :=
  ⟨by simp,
    (online_windowing_adapter (fun w => w.length) (fun _ => 0)
      (List.range 10) 8 (by simp)).1⟩

/-! ## Route-level input validation (`Embryo_Predict`, Doctor_Routes.py
lines 423–424) -/

/-- Outcome of an `Embryo_Predict` request after authentication: either a
prediction list with the `is_random` flag, or an HTTP status with an error
message. -/
inductive PredictOutcome where
  | success (predictions : List Nat) (isRandom : Bool)
  | failure (status : Nat) (message : String)
deriving Repr, DecidableEq

/-- The route's insufficient-input message
`f"Need at least {frame_count} images for prediction, got {len(images)}"`. -/
def insufficientMsg (F N : Nat) : String :=
  "Need at least " ++ toString F ++ " images for prediction, got " ++
    toString N

/-- The route body after authentication: reject with HTTP 400 before any
prediction is attempted whenever fewer than `frame_count` images are
supplied; otherwise defer to `doctor.predictTransitions`. -/
def embryoPredictRoute {I : Type} (doctor : List I → Nat → PredictOutcome)
    (images : List I) (F : Nat) : PredictOutcome :=
  if images.length < F then PredictOutcome.failure 400 (insufficientMsg F images.length)
  else doctor images F

/-- C5: an online prediction request with fewer frames than `frame_count`
fails with the explicit insufficient-input error and never yields any
(empty or partial) prediction list. -/
theorem insufficient_input_error {I : Type}
    (doctor : List I → Nat → PredictOutcome) (images : List I) (F : Nat)
    (h : images.length < F) :
    embryoPredictRoute doctor images F =
      PredictOutcome.failure 400 (insufficientMsg F images.length) ∧
    ∀ preds isRandom, embryoPredictRoute doctor images F ≠
      PredictOutcome.success preds isRandom := by
  have heq : embryoPredictRoute doctor images F =
      PredictOutcome.failure 400 (insufficientMsg F images.length) := by
    unfold embryoPredictRoute
    rw [if_pos h]
  refine ⟨heq, ?_⟩
  intro preds isRandom hcontra
  rw [heq] at hcontra
  exact PredictOutcome.noConfusion hcontra

/-- C5 witness: five supplied frames with `frame_count = 8` are rejected
with the explicit 400 error. -/
theorem insufficient_input_error_witness :
    (List.range 5).length < 8 ∧
    embryoPredictRoute (fun _ _ => PredictOutcome.success [] false)
        (List.range 5) 8 =
      PredictOutcome.failure 400 (insufficientMsg 8 (List.range 5).length) :=
  ⟨by simp,
    (insufficient_input_error (fun _ _ => PredictOutcome.success [] false)
      (List.range 5) 8 (by simp)).1⟩

/-! ## Ordinal extraction and frame sorting (DataSet.py lines 200–205)

`sorted(frames, key=lambda x: int(re.findall(r"\d+",
x["identifier"].split("_")[-1])[0]))`: the key is the first maximal digit
run of the final underscore-delimited token; `[0]` on an empty `findall`
result raises `IndexError("list index out of range")`, aborting dataset
construction. -/

/-- `str.split("_")` on the identifier's character list: always non-empty,
keeps empty segments, exactly like Python's `split` with an explicit
separator. -/
def splitOnChar (sep : Char) : List Char → List (List Char)
  | [] => [[]]
  | c :: cs =>
      let rest := splitOnChar sep cs
      if c = sep then [] :: rest
      else
        match rest with
        | [] => [[c]]
        | r :: rs => (c :: r) :: rs

/-- The final underscore-delimited token of the identifier. -/
def lastTokenChars (s : String) : List Char :=
  (splitOnChar '_' s.data).getLastD []

/-- `re.findall(r"\d+", t)[0]` when it exists: the first maximal run of
digit characters of `t`. -/
def firstDigitRun (cs : List Char) : List Char :=
  (cs.dropWhile (fun c => !c.isDigit)).takeWhile (fun c => c.isDigit)

/-- `int(...)` on a decimal digit run. -/
def digitsToNat (ds : List Char) : Nat :=
  ds.foldl (fun acc c => 10 * acc + (c.toNat - 48)) 0

/-- The sort key of `_create_sequences`; `none` models the `IndexError`
raised when the final token holds no digit run. -/
def extractOrdinal (s : String) : Option Nat :=
  match firstDigitRun (lastTokenChars s) with
  | [] => none
  | ds => some (digitsToNat ds)

/-- Key extraction over a whole video's frame list: the first frame whose
identifier yields no digit run aborts with the `IndexError` message. -/
def keyFrames : List Frame → Except String (List (Nat × Frame))
  | [] => Except.ok []
  | f :: fs =>
      match extractOrdinal f.identifier with
      | none => Except.error "list index out of range"
      | some o =>
          match keyFrames fs with
          | Except.error e => Except.error e
          | Except.ok rest => Except.ok ((o, f) :: rest)

/-- `sorted(frames, key=…)`: decorate with the extracted ordinals, sort by
them (stably), and undecorate; propagates the extraction error. -/
def sortedByOrdinal (frames : List Frame) : Except String (List Frame) :=
  match keyFrames frames with
  | Except.error e => Except.error e
  | Except.ok keyed =>
      Except.ok ((keyed.mergeSort (fun a b => a.1 ≤ b.1)).map Prod.snd)

theorem keyFrames_error_of_none {frames : List Frame}
    (h : ∃ f ∈ frames, extractOrdinal f.identifier = none) :
    keyFrames frames = Except.error "list index out of range" := by
  induction frames with
  | nil => simp at h
  | cons a l ih =>
      obtain ⟨f, hf, hnone⟩ := h
      cases ha : extractOrdinal a.identifier with
      | none => simp [keyFrames, ha]
      | some o =>
          have hfl : f ∈ l := by
            cases List.mem_cons.mp hf with
            | inl heq => rw [heq, ha] at hnone; exact absurd hnone (by simp)
            | inr h' => exact h'
          have := ih ⟨f, hfl, hnone⟩
          simp [keyFrames, ha, this]

theorem keyFrames_ok_of_all_some {frames : List Frame}
    (h : ∀ f ∈ frames, (extractOrdinal f.identifier).isSome = true) :
    ∃ ks, keyFrames frames = Except.ok ks ∧ ks.map Prod.snd = frames := by
  induction frames with
  | nil => exact ⟨[], rfl, rfl⟩
  | cons a l ih =>
      have ha := h a (List.mem_cons_self a l)
      cases ha' : extractOrdinal a.identifier with
      | none => rw [ha'] at ha; exact absurd ha (by simp)
      | some o =>
          obtain ⟨ks, hks, hmap⟩ := ih (fun f hf => h f (List.mem_cons_of_mem a hf))
          refine ⟨(o, a) :: ks, ?_, ?_⟩
          · simp [keyFrames, ha', hks]
          · simp [hmap]

theorem firstDigitRun_eq_nil_iff (cs : List Char) :
    firstDigitRun cs = [] ↔ ∀ c ∈ cs, c.isDigit = false := by
  unfold firstDigitRun
  induction cs with
  | nil => simp
  | cons c cs ih =>
      cases hd : c.isDigit with
      | true => simp [List.dropWhile_cons, List.takeWhile_cons, hd]
      | false => simp [List.dropWhile_cons, List.takeWhile_cons, hd, ih]

/-- C8: the sort key is the first digit run of the identifier's final
underscore token (`extractOrdinal` yields nothing exactly when that token
holds no digit); any frame with an unparsable identifier aborts the sort
with the `IndexError`, and when every identifier parses the sort succeeds
with a permutation of the frames — no frame is skipped or coerced. -/
theorem ordinal_extraction_fail_fast (frames : List Frame) :
    ((∃ f ∈ frames, extractOrdinal f.identifier = none) →
      sortedByOrdinal frames = Except.error "list index out of range") ∧
    ((∀ f ∈ frames, (extractOrdinal f.identifier).isSome = true) →
      ∃ l, sortedByOrdinal frames = Except.ok l ∧ l.Perm frames) ∧
    (∀ s : String,
      extractOrdinal s = none ↔ ∀ c ∈ lastTokenChars s, c.isDigit = false) := by
  refine ⟨?_, ?_, ?_⟩
  · intro h
    unfold sortedByOrdinal
    rw [keyFrames_error_of_none h]
  · intro h
    obtain ⟨ks, hks, hmap⟩ := keyFrames_ok_of_all_some h
    refine ⟨(ks.mergeSort (fun a b => a.1 ≤ b.1)).map Prod.snd, ?_, ?_⟩
    · unfold sortedByOrdinal
      rw [hks]
    · rw [← hmap]
      exact (List.mergeSort_perm ks _).map Prod.snd
  · intro s
    unfold extractOrdinal
    cases hr : firstDigitRun (lastTokenChars s) with
    | nil =>
        simp only [true_iff]
        exact (firstDigitRun_eq_nil_iff _).mp hr
    | cons d ds =>
        constructor
        · intro hcontra
          exact absurd hcontra (by simp)
        · intro hall
          have := (firstDigitRun_eq_nil_iff (lastTokenChars s)).mpr hall
          rw [hr] at this
          exact absurd this (by simp)

def badFrame : Frame :=
  { identifier := "E1_RUN_XY", path := "a.png", phase := "t2" }

/-- C8 witness: a frame whose final identifier token `XY` has no digits
makes the sort abort with the `IndexError` message. -/
theorem ordinal_extraction_fail_fast_witness :
    (badFrame ∈ [badFrame] ∧ extractOrdinal badFrame.identifier = none) ∧
    sortedByOrdinal [badFrame] = Except.error "list index out of range" :=
  ⟨⟨by decide, by decide⟩,
    (ordinal_extraction_fail_fast [badFrame]).1
      ⟨badFrame, by decide, by decide⟩⟩

/-! ## Phase vocabulary (DataSet.py lines 150–175)

`present_phases = [p for p in chronological_phases if p in df[phase_col].unique()]`
and `phase_to_index = {label: index for index, label in enumerate(present_phases)}`. -/

/-- The 15 canonical phases in biological chronology. -/
def chronologicalPhases : List String :=
  ["tPB2", "tPNa", "tPNf", "t2", "t3", "t4", "t5", "t6", "t7", "t8", "t9+",
   "tM", "tSB", "tB", "tEB"]

/-- The present subset: canonical phases that occur among the loaded data's
phase-column values, kept in chronological order. -/
def presentPhases (occurring : List String) : List String :=
  chronologicalPhases.filter (fun p => occurring.contains p)

/-- The `phase_to_index` dictionary, as its association list: label paired
with its position in `present_phases`. -/
def phaseToIndex (occurring : List String) : List (String × Nat) :=
  (presentPhases occurring).enum.map (fun e => (e.2, e.1))

theorem lookup_keyed_filter (q : String → Bool) (p : String)
    (hq : q p = true) :
    ∀ (L : List String) (k : Nat), p ∈ L →
      (((L.filter q).enumFrom k).map (fun e => (e.2, e.1))).lookup p =
        some (k + ((L.takeWhile (fun x => x != p)).filter q).length) := by
  intro L
  induction L with
  | nil =>
      intro k hp
      simp at hp
  | cons a L ih =>
      intro k hp
      by_cases hap : a = p
      · subst hap
        simp [List.filter_cons, hq, List.enumFrom_cons, List.takeWhile_cons,
          List.lookup]
      · have hpl : p ∈ L := by
          cases List.mem_cons.mp hp with
          | inl h => exact absurd h.symm hap
          | inr h => exact h
        have hane : (a != p) = true := bne_iff_ne.mpr hap
        have hpa : (p == a) = false :=
          beq_eq_false_iff_ne.mpr (fun h => hap h.symm)
        cases hqa : q a with
        | true =>
            simp only [List.filter_cons, hqa, if_true, List.enumFrom_cons,
              List.map_cons, List.takeWhile_cons, hane, List.lookup, hpa,
              List.length_cons]
            rw [ih (k + 1) hpl]
            exact congrArg some (by omega)
        | false =>
            simp only [List.filter_cons, hqa, Bool.false_eq_true, if_false,
              List.takeWhile_cons, hane, if_true]
            rw [ih k hpl]

/-- C9: the per-dataset mapping lists exactly the canonical phases occurring
in the data, keeps chronological order, and assigns dense indices from 0 in
that order: the index of a present phase `p` is the number of present
phases chronologically before `p`. -/
theorem phase_vocabulary_dense (occ : List String) :
    ((phaseToIndex occ).map Prod.fst = presentPhases occ) ∧
    (∀ p, p ∈ presentPhases occ ↔
      (p ∈ chronologicalPhases ∧ occ.contains p = true)) ∧
    (presentPhases occ).Sublist chronologicalPhases ∧
    (∀ p, p ∈ presentPhases occ →
      (phaseToIndex occ).lookup p =
        some (((chronologicalPhases.takeWhile (fun x => x != p)).filter
          (fun x => occ.contains x)).length)) := by
  refine ⟨?_, ?_, List.filter_sublist chronologicalPhases, ?_⟩
  · unfold phaseToIndex
    rw [List.map_map]
    exact List.enum_map_snd (presentPhases occ)
  · intro p
    simp [presentPhases, List.mem_filter]
  · intro p hp
    have hmem := List.mem_filter.mp hp
    have hq : occ.contains p = true := hmem.2
    have := lookup_keyed_filter (fun x => occ.contains x) p hq
      chronologicalPhases 0 hmem.1
    rw [phaseToIndex, presentPhases, List.enum_eq_enumFrom, this,
      Nat.zero_add]

/-- C9 witness: with loaded data holding phases `t3` and `t2`, the phase
`t3` is present and its dense index equals the count of present phases
before it (namely 1, for `t2`). -/
theorem phase_vocabulary_dense_witness :
    "t3" ∈ presentPhases ["t3", "t2"] ∧
    (phaseToIndex ["t3", "t2"]).lookup "t3" =
      some (((chronologicalPhases.takeWhile (fun x => x != "t3")).filter
        (fun x => (["t3", "t2"] : List String).contains x)).length) :=
  ⟨by decide, (phase_vocabulary_dense ["t3", "t2"]).2.2.2 "t3" (by decide)⟩

end EmbryoTransitions
